import Mathlib

/-
Verification of the mini-swe-agent-CaM core: the agent control loop
(`minisweagent/agents/default.py`), the Docker sandbox executor
(`minisweagent/environments/docker_cam.py`) and the litellm response-API
model adapter (`minisweagent/models/litellm_response_api_model.py`).

Python strings are modelled as `List Char`; the Python `dict` results of
`execute` are modelled by explicit structures; exceptions are modelled by
explicit outcome types; the external collaborators (the LLM provider, the
Docker subprocess, `time.time`, jinja2 template rendering and `re.findall`
over the configured pattern) are modelled as oracle functions supplied as
parameters, exactly at the library-call boundary of the source.
-/

namespace MiniSweAgent

/-- Python whitespace as used by `str.strip()` / `str.lstrip()`, restricted to
the characters that can actually occur around the constructs of this
development: ASCII whitespace together with the control and Unicode
separator characters that `str.splitlines` treats as line breaks (every
line-break character of `splitlines` is whitespace for `strip`). -/
def isPySpace (c : Char) : Bool :=
  c = ' ' || c = '\t' || c = '\n' || c = '\r' || c = '\x0b' || c = '\x0c' ||
  c = '\x1c' || c = '\x1d' || c = '\x1e' || c = '\x1f' || c = '\x85' ||
  c = '\xa0' || c = '\u2028' || c = '\u2029'

/-- Python `str.lstrip()` (no argument): drop leading whitespace. -/
def lstrip (s : List Char) : List Char := s.dropWhile isPySpace

/-- Python `str.rstrip()` (no argument): drop trailing whitespace. -/
def rstrip (s : List Char) : List Char := (s.reverse.dropWhile isPySpace).reverse

/-- Python `str.strip()` (no argument): drop leading and trailing whitespace. -/
def strip (s : List Char) : List Char := rstrip (lstrip s)

/-- The single-character line boundaries of Python `str.splitlines`
(`\r\n` is additionally recognised as one two-character boundary). -/
def isLineBreak (c : Char) : Bool :=
  c = '\n' || c = '\r' || c = '\x0b' || c = '\x0c' ||
  c = '\x1c' || c = '\x1d' || c = '\x1e' || c = '\x85' ||
  c = '\u2028' || c = '\u2029'

/-- Python `str.splitlines(keepends=True)`: split into lines, each line
keeping its terminating line boundary; `\r\n` counts as a single boundary;
a final line without terminator is kept; the empty string gives `[]`. -/
def splitlinesKeepends : List Char → List (List Char)
  | [] => []
  | c :: rest =>
    if c = '\r' then
      match rest with
      | [] => [[c]]
      | c2 :: rest2 =>
        if c2 = '\n' then (c :: c2 :: []) :: splitlinesKeepends rest2
        else [c] :: splitlinesKeepends (c2 :: rest2)
    else if isLineBreak c then
      [c] :: splitlinesKeepends rest
    else
      match splitlinesKeepends rest with
      | [] => [[c]]
      | l :: ls => (c :: l) :: ls

/-- The two submission sentinel literals of `DefaultAgent.has_finished`. -/
def sentinels : List (List Char) :=
  ["MINI_SWE_AGENT_FINAL_OUTPUT".toList, "COMPLETE_TASK_AND_SUBMIT_FINAL_OUTPUT".toList]

/-- Model of `DefaultAgent.has_finished` (agents/default.py lines 119-123), as
a function from the `output` field of the execution-result dict (`none` when
the dict has no `"output"` key, matching `output.get("output", "")`) to
`some payload` when `Submitted(payload)` is raised and `none` otherwise:
`lines = output.get("output", "").lstrip().splitlines(keepends=True)`;
if `lines` is nonempty and `lines[0].strip()` is one of the sentinels,
`Submitted("".join(lines[1:]))` is raised. -/
def has_finished (output : Option (List Char)) : Option (List Char) :=
  match splitlinesKeepends (lstrip (output.getD [])) with
  | [] => none
  | l :: rest => if strip l ∈ sentinels then some rest.flatten else none

/-! ## JSON values and `json.loads`, for `DockerEnvironmentCam.execute` -/

/-- JSON values, as produced by Python's `json.loads` on the inputs this
development ranges over.  Numbers are modelled as integers (floating-point
JSON numbers are outside the scope of this model); object member lists keep
the source order, with duplicate keys resolved on lookup like a Python dict
(the last binding wins). -/
inductive Json where
  | null : Json
  | bool (b : Bool) : Json
  | num (n : Int) : Json
  | str (s : List Char) : Json
  | arr (elems : List Json) : Json
  | obj (members : List (List Char × Json)) : Json

/-- Python-dict lookup on a JSON object member list: the last binding of the
key wins (later duplicate keys overwrite earlier ones in `json.loads`). -/
def jsonLookup (members : List (List Char × Json)) (key : List Char) : Option Json :=
  match members with
  | [] => none
  | (k, v) :: rest =>
    match jsonLookup rest key with
    | some w => some w
    | none => if k = key then some v else none

/-- JSON whitespace skipped between tokens by `json.loads`. -/
def isJsonSpace (c : Char) : Bool :=
  c = ' ' || c = '\t' || c = '\n' || c = '\r'

def skipJsonSpace (s : List Char) : List Char := s.dropWhile isJsonSpace

def isJsonDigit (c : Char) : Bool := '0' ≤ c && c ≤ '9'

/-- Parse a nonempty run of decimal digits into a natural number. -/
def parseDigits : List Char → Option (Nat × List Char)
  | [] => none
  | c :: rest =>
    if isJsonDigit c then
      match parseDigits rest with
      | some (n, rest') =>
        some (n + (c.toNat - '0'.toNat) * 10 ^ (rest.length - rest'.length), rest')
      | none => some (c.toNat - '0'.toNat, rest)
    else none

/-- Parse the body of a JSON string (after the opening quote), with the basic
escape sequences; stops at the closing quote.  (`\uXXXX` escapes are outside
the scope of this model.) -/
def parseJsonStringBody : List Char → Option (List Char × List Char)
  | [] => none
  | '"' :: rest => some ([], rest)
  | '\\' :: e :: rest =>
    match
      (if e = '"' then some '"'
       else if e = '\\' then some '\\'
       else if e = '/' then some '/'
       else if e = 'b' then some '\x08'
       else if e = 'f' then some '\x0c'
       else if e = 'n' then some '\n'
       else if e = 'r' then some '\r'
       else if e = 't' then some '\t'
       else none) with
    | some c =>
      match parseJsonStringBody rest with
      | some (s, rest') => some (c :: s, rest')
      | none => none
    | none => none
  | c :: rest =>
    match parseJsonStringBody rest with
    | some (s, rest') => some (c :: s, rest')
    | none => none

/-- The `{` character (written by code point to keep brace characters out of
literals). -/
def lbrace : Char := Char.ofNat 123

/-- The `}` character (written by code point). -/
def rbrace : Char := Char.ofNat 125

/-- Parsing modes of the JSON reader: a single value, the members of an
object after its opening brace, or the elements of an array after `[`. -/
inductive JMode where
  | value : JMode
  | members : JMode
  | elems : JMode

/-- Recursive-descent JSON reader modelling Python `json.loads`, fuelled so
that it is structurally recursive.  In `members` mode it returns the
`Json.obj` of the members up to (and consuming) the closing brace; in
`elems` mode the `Json.arr` up to `]`. -/
def parseJson : Nat → JMode → List Char → Option (Json × List Char)
  | 0, _, _ => none
  | Nat.succ fuel, JMode.value, s =>
    match skipJsonSpace s with
    | 't' :: 'r' :: 'u' :: 'e' :: rest => some (Json.bool true, rest)
    | 'f' :: 'a' :: 'l' :: 's' :: 'e' :: rest => some (Json.bool false, rest)
    | 'n' :: 'u' :: 'l' :: 'l' :: rest => some (Json.null, rest)
    | '"' :: rest =>
      match parseJsonStringBody rest with
      | some (str, r) => some (Json.str str, r)
      | none => none
    | '[' :: rest => parseJson fuel JMode.elems rest
    | '-' :: rest =>
      match parseDigits rest with
      | some (n, r) => some (Json.num (-(n : Int)), r)
      | none => none
    | c :: rest =>
      if c = lbrace then parseJson fuel JMode.members rest
      else if isJsonDigit c then
        match parseDigits (c :: rest) with
        | some (n, r) => some (Json.num (n : Int), r)
        | none => none
      else none
    | [] => none
  | Nat.succ fuel, JMode.members, s =>
    match skipJsonSpace s with
    | [] => none
    | c :: rest =>
      if c = rbrace then some (Json.obj [], rest)
      else if c = '"' then
        match parseJsonStringBody rest with
        | some (key, r1) =>
          match skipJsonSpace r1 with
          | ':' :: r2 =>
            match parseJson fuel JMode.value r2 with
            | some (v, r3) =>
              (match skipJsonSpace r3 with
               | c2 :: r4 =>
                 if c2 = ',' then
                   match parseJson fuel JMode.members r4 with
                   | some (Json.obj ms, r5) => some (Json.obj ((key, v) :: ms), r5)
                   | _ => none
                 else if c2 = rbrace then some (Json.obj [(key, v)], r4)
                 else none
               | [] => none)
            | none => none
          | _ => none
        | none => none
      else none
  | Nat.succ fuel, JMode.elems, s =>
    match skipJsonSpace s with
    | [] => none
    | ']' :: rest => some (Json.arr [], rest)
    | s' =>
      match parseJson fuel JMode.value s' with
      | some (v, r1) =>
        (match skipJsonSpace r1 with
         | ',' :: r2 =>
           match parseJson fuel JMode.elems r2 with
           | some (Json.arr vs, r3) => some (Json.arr (v :: vs), r3)
           | _ => none
         | ']' :: r2 => some (Json.arr [v], r2)
         | _ => none)
      | none => none

/-- Python `json.loads`: parse the whole input as one JSON value; trailing
content other than whitespace is a decoding failure (`none`). -/
def jsonLoads (s : List Char) : Option Json :=
  match parseJson (2 * s.length + 2) JMode.value s with
  | some (v, rest) => if skipJsonSpace rest = [] then some v else none
  | none => none

/-! ## `DockerEnvironmentCam.execute` (environments/docker_cam.py lines 146-180) -/

/-- The result dict of `DockerEnvironmentCam.execute`.  Both fields are JSON
values: on the raw path they are the captured text (`Json.str`) and the
shell's exit code (`Json.num`); on the unwrapped path they are whatever JSON
values the parsed object holds under `"output"` and `"returncode"`. -/
structure ExecuteResult where
  output : Json
  returncode : Json

/-- The key `"output"`. -/
def outputKey : List Char := "output".toList

/-- The key `"returncode"`. -/
def returncodeKey : List Char := "returncode".toList

/-- The post-processing of `DockerEnvironmentCam.execute` on the captured
subprocess result (docker_cam.py lines 169-180): try
`json.loads(result.stdout.strip())`; if it yields a dict containing both the
keys `"output"` and `"returncode"`, return those two fields; on any decoding
failure, non-dict value or missing key, return the raw captured text and the
shell's own return code.  `stdout` is the interleaved captured text and
`returncode` the shell exit code of the `subprocess.run` call. -/
def execute (stdout : List Char) (returncode : Int) : ExecuteResult :=
  match jsonLoads (strip stdout) with
  | some (Json.obj members) =>
    match jsonLookup members outputKey, jsonLookup members returncodeKey with
    | some out, some rc => { output := out, returncode := rc }
    | _, _ => { output := Json.str stdout, returncode := Json.num returncode }
  | _ => { output := Json.str stdout, returncode := Json.num returncode }

/-! ## The agent control loop (agents/default.py) -/

/-- A conversation message as built by `DefaultAgent.add_message`:
`{"role": role, "content": content, "timestamp": time.time(), **kwargs}`.
The keyword fields beyond role/content/timestamp (for assistant messages,
the provider response payload under `"extra"`) are modelled as an opaque
optional JSON value. -/
structure Message where
  role : List Char
  content : List Char
  timestamp : Rat
  extra : Option Json

/-- What one call of the model's `query` produces: the response dict
`{"content": …, "extra": …}` together with the cost delta the model adds to
its own running `cost` total (`LitellmResponseAPIModel.query` lines 74-82). -/
structure ModelOutput where
  content : List Char
  extra : Option Json
  costDelta : Rat

/-- An execution-result dict as consumed by the control loop: string
`output`, integer `returncode`. -/
structure EnvResult where
  output : List Char
  returncode : Int

/-- What `env.execute(action)` does, as seen by `execute_action`: either a
result dict, or a `TimeoutError`/`subprocess.TimeoutExpired` carrying the
partial captured output (`e.output`; `none` models a falsy/absent
`e.output`, which the agent replaces by the empty string). -/
inductive EnvOutcome where
  | result (res : EnvResult) : EnvOutcome
  | timeout (captured : Option (List Char)) : EnvOutcome

/-- The external collaborators of one agent run, modelled as oracles at the
exact call boundaries of the source: `self.model.query`, `self.env.execute`
and `time.time`. -/
structure Oracles where
  model : List Message → ModelOutput
  env : List Char → EnvOutcome
  clock : Nat → Rat

/-- The agent configuration, with the jinja2 template rendering
(`render_template`, an external collaborator) and `re.findall` over
`config.action_regex` modelled as opaque functions: `system_prompt` and
`instance_prompt` are the rendered system/instance templates,
`render_timeout`/`render_format_error`/`render_observation` the rendered
timeout/format-error/action-observation templates as functions of the
template arguments the source passes, and `findall` the list of matches of
the configured action pattern in a response content. -/
structure AgentConfig where
  step_limit : Int
  cost_limit : Rat
  system_prompt : List Char
  instance_prompt : List Char
  render_timeout : List Char → List Char → List Char
  render_format_error : List (List Char) → List Char
  render_observation : EnvResult → List Char → List Char
  findall : List Char → List (List Char)

/-- The mutable state a run touches: `self.messages` plus the model's
running totals `n_calls` and `cost`, and the count of `time.time()` calls
made (driving the timestamp oracle). -/
structure AgentState where
  messages : List Message
  n_calls : Nat
  cost : Rat
  ticks : Nat

/-- Model of `DefaultAgent.add_message` (default.py lines 64-65): append one message
with the next `time.time()` value as timestamp. -/
def add_message (o : Oracles) (st : AgentState) (role content : List Char)
    (extra : Option Json) : AgentState :=
  { st with
    messages := st.messages ++
      [{ role := role, content := content, timestamp := o.clock st.ticks, extra := extra }],
    ticks := st.ticks + 1 }

/-- The guard of `DefaultAgent.query` (default.py line 88):
`0 < self.config.step_limit <= self.model.n_calls or
 0 < self.config.cost_limit <= self.model.cost`. -/
def limitsHit (cfg : AgentConfig) (st : AgentState) : Bool :=
  (decide (0 < cfg.step_limit) && decide (cfg.step_limit ≤ (st.n_calls : Int))) ||
  (decide (0 < cfg.cost_limit) && decide (cfg.cost_limit ≤ st.cost))

/-- Outcome of `DefaultAgent.query`: either `LimitsExceeded` raised (with
the state at the moment the exception propagates), or the model response
with the state after the assistant message was appended. -/
inductive QueryResult where
  | limitsExceeded (st : AgentState) : QueryResult
  | ok (response : ModelOutput) (st : AgentState) : QueryResult

/-- Model of `DefaultAgent.query` (default.py lines 86-92): raise `LimitsExceeded`
if the guard holds, else call the model (which bumps its own `n_calls` and
`cost`), append the assistant message, and return the response. -/
def query (cfg : AgentConfig) (o : Oracles) (st : AgentState) : QueryResult :=
  if limitsHit cfg st then QueryResult.limitsExceeded st
  else
    let r := o.model st.messages
    let st' := { st with n_calls := st.n_calls + 1, cost := st.cost + r.costDelta }
    QueryResult.ok r (add_message o st' "assistant".toList r.content r.extra)

/-- Model of `DefaultAgent.parse_action` (default.py lines 101-106):
`actions = re.findall(self.config.action_regex, response["content"], re.DOTALL)`;
exactly one match returns `actions[0].strip()`, anything else raises
`FormatError(render(format_error_template, actions=actions))` (the
exception's message is the rendered template). -/
def parse_action (cfg : AgentConfig) (response : ModelOutput) :
    Except (List Char) (List Char) :=
  match cfg.findall response.content with
  | [a] => Except.ok (strip a)
  | actions => Except.error (cfg.render_format_error actions)

/-- Outcome of `DefaultAgent.execute_action`. -/
inductive ExecActionResult where
  | ok (res : EnvResult) : ExecActionResult
  | timeoutError (msg : List Char) : ExecActionResult
  | submitted (payload : List Char) : ExecActionResult

/-- Model of `DefaultAgent.execute_action` (default.py lines 108-117): run the action
in the environment; a timeout raises `ExecutionTimeoutError` whose message
renders the timeout template over the action and the partial captured
output (empty string when `e.output` is falsy); otherwise `has_finished`
may raise `Submitted`; otherwise the result (merged with the action text)
is returned. -/
def execute_action (cfg : AgentConfig) (o : Oracles) (action : List Char) :
    ExecActionResult :=
  match o.env action with
  | EnvOutcome.timeout captured =>
    ExecActionResult.timeoutError (cfg.render_timeout action (captured.getD []))
  | EnvOutcome.result res =>
    match has_finished (some res.output) with
    | some payload => ExecActionResult.submitted payload
    | none => ExecActionResult.ok res

/-- Outcome of one `DefaultAgent.step` (query + get_observation), with the
state at the moment control returns to `run`'s exception handlers. -/
inductive StepResult where
  | observed (res : EnvResult) (st : AgentState) : StepResult
  | formatError (msg : List Char) (st : AgentState) : StepResult
  | timeoutError (msg : List Char) (st : AgentState) : StepResult
  | limitsExceeded (st : AgentState) : StepResult
  | submitted (payload : List Char) (st : AgentState) : StepResult

/-- Model of `DefaultAgent.step` = `self.get_observation(self.query())`
(default.py lines 82-99): query, parse, execute, then append the rendered
observation as a user message. -/
def step (cfg : AgentConfig) (o : Oracles) (st : AgentState) : StepResult :=
  match query cfg o st with
  | QueryResult.limitsExceeded st' => StepResult.limitsExceeded st'
  | QueryResult.ok r st' =>
    match parse_action cfg r with
    | Except.error msg => StepResult.formatError msg st'
    | Except.ok action =>
      match execute_action cfg o action with
      | ExecActionResult.timeoutError msg => StepResult.timeoutError msg st'
      | ExecActionResult.submitted payload => StepResult.submitted payload st'
      | ExecActionResult.ok res =>
        StepResult.observed res
          (add_message o st' "user".toList (cfg.render_observation res action) none)

/-- The string `type(e).__name__` for `Submitted`. -/
def kindSubmitted : List Char := "Submitted".toList

/-- The string `type(e).__name__` for `LimitsExceeded`. -/
def kindLimitsExceeded : List Char := "LimitsExceeded".toList

/-- Outcome of one iteration of the `while True` loop in
`DefaultAgent.run` (default.py lines 73-80). -/
inductive IterResult where
  | next (st : AgentState) : IterResult
  | done (kind : List Char) (msg : List Char) (st : AgentState) : IterResult

/-- One iteration of `run`'s loop: a `NonTerminatingException` (format error
or execution timeout) appends `str(e)` as a user message and continues; a
`TerminatingException` appends `str(e)` and returns
`(type(e).__name__, str(e))`; `str(LimitsExceeded())` is the empty string
and `str(Submitted(payload))` is the payload. -/
def loopIter (cfg : AgentConfig) (o : Oracles) (st : AgentState) : IterResult :=
  match step cfg o st with
  | StepResult.observed _ st' => IterResult.next st'
  | StepResult.formatError msg st' =>
    IterResult.next (add_message o st' "user".toList msg none)
  | StepResult.timeoutError msg st' =>
    IterResult.next (add_message o st' "user".toList msg none)
  | StepResult.limitsExceeded st' =>
    IterResult.done kindLimitsExceeded [] (add_message o st' "user".toList [] none)
  | StepResult.submitted payload st' =>
    IterResult.done kindSubmitted payload (add_message o st' "user".toList payload none)

/-- The start of `DefaultAgent.run` (default.py lines 67-72): reset
`self.messages` to `[]`, then append the rendered system template as the
system message and the rendered instance template as the user (task)
message. -/
def runStart (cfg : AgentConfig) (o : Oracles) (st : AgentState) : AgentState :=
  let st0 := { st with messages := [] }
  let st1 := add_message o st0 "system".toList cfg.system_prompt none
  add_message o st1 "user".toList cfg.instance_prompt none

/-- Iterate `run`'s `while True` loop `n` times (default.py lines 73-80):
returns `some (kind, message)` as soon as an iteration terminates, plus the
state reached. -/
def runFor (cfg : AgentConfig) (o : Oracles) :
    Nat → AgentState → Option (List Char × List Char) × AgentState
  | 0, st => (none, st)
  | Nat.succ n, st =>
    match loopIter cfg o st with
    | IterResult.next st' => runFor cfg o n st'
    | IterResult.done kind msg st' => (some (kind, msg), st')

/-! ## The litellm response-API model adapter
(models/litellm_response_api_model.py) -/

/-- The exception classes reaching `_query`'s tenacity `retry` decorator,
by the `isinstance` classification of its
`retry_if_not_exception_type` tuple (lines 34-44): the seven listed
classes, or any other exception (`transient`, e.g. rate-limit or
network failures, distinguished by an arbitrary code). -/
inductive LMError where
  | unsupportedParams : LMError
  | notFound : LMError
  | permissionDenied : LMError
  | contextWindowExceeded : LMError
  | apiError : LMError
  | authenticationError : LMError
  | keyboardInterrupt : LMError
  | transient (code : Nat) : LMError
deriving DecidableEq

/-- Membership in the `retry_if_not_exception_type` tuple: these classes
are never retried. -/
def noRetry : LMError → Bool
  | LMError.unsupportedParams => true
  | LMError.notFound => true
  | LMError.permissionDenied => true
  | LMError.contextWindowExceeded => true
  | LMError.apiError => true
  | LMError.authenticationError => true
  | LMError.keyboardInterrupt => true
  | LMError.transient _ => false

/-- The `stop_after_attempt(10)` bound on attempts. -/
def stopAfterAttemptBound : Nat := 10

/-- Model of `wait_exponential(multiplier=1, min=4, max=60)`: the backoff slept after
the failed attempt numbered `attempt`, per tenacity's
`max(min, min(multiplier * 2^(attempt_number - 1), max))`. -/
def waitExponential (attempt : Nat) : Rat :=
  max 4 (min ((2 : Rat) ^ (attempt - 1)) 60)

/-- The tenacity retry engine as configured on `_query` (lines 29-45),
modelled from the library's semantics with the decorator's arguments:
`attempt` is the current attempt number, `remaining` how many further
attempts `stop_after_attempt` still allows.  Returns the final result
(`reraise=True`: the last exception is re-raised), the number of the
attempt that produced it, and the list of backoff waits slept between
attempts.  An exception whose class is in the
`retry_if_not_exception_type` tuple is returned at once; otherwise the
call is retried after `waitExponential` of the failed attempt. -/
def retryCall {α : Type} (f : Nat → Except LMError α) (attempt : Nat) :
    Nat → Except LMError α × Nat × List Rat
  | 0 => (f attempt, attempt, [])
  | Nat.succ remaining =>
    match f attempt with
    | Except.ok a => (Except.ok a, attempt, [])
    | Except.error e =>
      if noRetry e then (Except.error e, attempt, [])
      else
        match retryCall f (attempt + 1) remaining with
        | (r, n, ws) => (r, n, waitExponential attempt :: ws)

/-- Model of `LitellmResponseAPIModel._query` under its `retry` decorator: up to
`stop_after_attempt(10)` attempts of the provider call `f`, starting at
attempt 1. -/
def queryWithRetry {α : Type} (f : Nat → Except LMError α) :
    Except LMError α × Nat × List Rat :=
  retryCall f 1 (stopAfterAttemptBound - 1)

/-- The message cleaning of `_query` (line 49):
`[{"role": msg["role"], "content": msg["content"]} for msg in messages]` —
every field other than role and content is stripped. -/
def clean_messages (messages : List Message) : List (List Char × List Char) :=
  messages.map (fun m => (m.role, m.content))

/-- The `input` argument handed to `litellm.responses` (line 52):
`clean_messages if self._previous_response_id is None else clean_messages[-1:]`. -/
def providerInput (previousResponseId : Option (List Char)) (messages : List Message) :
    List (List Char × List Char) :=
  match previousResponseId with
  | none => clean_messages messages
  | some _ => (clean_messages messages).drop ((clean_messages messages).length - 1)

/-! ## Spec-side definitions

These follow the claims' own words (for refinement comparison against the
definitions translated from the source above). -/

/-- Spec-side: the first non-blank line among a list of lines (blank =
whitespace only), paired with the concatenation of everything after that
line. -/
def firstNonBlank : List (List Char) → Option (List Char × List Char)
  | [] => none
  | l :: ls => if strip l = [] then firstNonBlank ls else some (l, ls.flatten)

/-- Spec-side: a line without its terminating line boundary (a claim's
"line", when the claim strips only leading whitespace, cannot include the
trailing newline). -/
def dropLineEnd (l : List Char) : List Char :=
  match l.reverse with
  | '\n' :: '\r' :: r => r.reverse
  | c :: r => if isLineBreak c then r.reverse else l
  | [] => l

/-- Claim C2's sentinel condition exactly as stated: the first non-blank
line of the output, after stripping LEADING whitespace only, exactly equals
one of the sentinels. -/
def claimC2Condition (output : List Char) : Bool :=
  match firstNonBlank (splitlinesKeepends output) with
  | some (l, _) => decide (lstrip (dropLineEnd l) ∈ sentinels)
  | none => false

/-- The amended sentinel condition: as claim C2, but stripping leading AND
trailing whitespace of the first non-blank line. -/
def submitCondition (output : List Char) : Bool :=
  match firstNonBlank (splitlinesKeepends output) with
  | some (l, _) => decide (strip l ∈ sentinels)
  | none => false

/-- The final payload the claim predicts on submission: the text after the
first non-blank line. -/
def submitPayload (output : List Char) : Option (List Char) :=
  match firstNonBlank (splitlinesKeepends output) with
  | some (_, rest) => some rest
  | none => none

/-- Claim C1's condition exactly as stated: the trimmed output parses as a
JSON object whose keys are exactly `output` and `returncode` and nothing
else. -/
def claimC1Condition (stdout : List Char) : Bool :=
  match jsonLoads (strip stdout) with
  | some (Json.obj members) =>
    decide (outputKey ∈ members.map Prod.fst) &&
    decide (returncodeKey ∈ members.map Prod.fst) &&
    (members.map Prod.fst).all (fun k => k == outputKey || k == returncodeKey)
  | _ => false

/-- The amended unwrap condition: the trimmed output parses as a JSON
object containing the keys `output` and `returncode` (other keys
permitted). -/
def unwrapCondition (stdout : List Char) : Bool :=
  match jsonLoads (strip stdout) with
  | some (Json.obj members) =>
    (jsonLookup members outputKey).isSome && (jsonLookup members returncodeKey).isSome
  | _ => false

/-- The sentinel scan claim C2 describes, over a list of lines: find the
first non-blank line; submit (with the text after it as payload) exactly
when its stripped form is a sentinel. -/
def specScan (lines : List (List Char)) : Option (List Char) :=
  match firstNonBlank lines with
  | some (l, rest) => if strip l ∈ sentinels then some rest else none
  | none => none

/-- Projection: the termination kind of a loop iteration, `none` when the
run continues. -/
def iterDoneKind : IterResult → Option (List Char)
  | IterResult.next _ => none
  | IterResult.done kind _ _ => some kind

/-- Projection: the final message of a terminating loop iteration. -/
def iterDoneMsg : IterResult → Option (List Char)
  | IterResult.next _ => none
  | IterResult.done _ msg _ => some msg

/-- Projection: the agent state after a loop iteration. -/
def iterState : IterResult → AgentState
  | IterResult.next st => st
  | IterResult.done _ _ st => st

/-! ## Concrete fixtures used by counterexamples and witnesses -/

/-- An agent state with an empty conversation and fresh budget. -/
def emptyState : AgentState :=
  { messages := [], n_calls := 0, cost := 0, ticks := 0 }

/-- Oracles whose environment always produces `outcome`, with a model that
answers with empty content at no cost and a constant clock. -/
def constOracles (outcome : EnvOutcome) : Oracles :=
  { model := fun _ => { content := [], extra := none, costDelta := 0 },
    env := fun _ => outcome,
    clock := fun _ => 0 }

/-- A configuration with both ceilings disabled, trivial rendered templates
and an action pattern that always matches exactly once. -/
def testConfig : AgentConfig :=
  { step_limit := 0, cost_limit := 0,
    system_prompt := "sys".toList, instance_prompt := "task".toList,
    render_timeout := fun _ output => output,
    render_format_error := fun _ => "format error".toList,
    render_observation := fun res _ => res.output,
    findall := fun _ => ["ls".toList] }

/-- C2 counterexample input: the sentinel line carries one trailing space. -/
def c2Output : List Char := "MINI_SWE_AGENT_FINAL_OUTPUT \nfoo".toList

/-- Witness for C2 on the spec's own example output. -/
def c2Example : List Char := "MINI_SWE_AGENT_FINAL_OUTPUT\nfoo\nbar".toList

/-- C1 counterexample input: a JSON object with a third key besides
`output` and `returncode`. -/
def c1Extra : List Char :=
  "\x7b\"output\": \"x\", \"returncode\": 3, \"extra\": 1\x7d".toList

/-- C1 witness input: the two-key JSON envelope from the spec's example. -/
def c1Wrapped : List Char := "\x7b\"output\": \"x\", \"returncode\": 3\x7d".toList

/-! ## Sanity examples (concrete evaluations of the embedded code) -/

example : has_finished (some "MINI_SWE_AGENT_FINAL_OUTPUT\nfoo\nbar".toList) =
    some "foo\nbar".toList := by decide

example : jsonLoads "\x7b\"output\": \"x\", \"returncode\": 3\x7d".toList =
    some (Json.obj [(outputKey, Json.str "x".toList), (returncodeKey, Json.num 3)]) := by
  rfl

example : execute "\x7b\"output\": \"x\", \"returncode\": 3\x7d".toList 0 =
    { output := Json.str "x".toList, returncode := Json.num 3 } := by rfl

example : execute "plain text".toList 2 =
    { output := Json.str "plain text".toList, returncode := Json.num 2 } := by rfl

/-! ## Lemmas about the string primitives -/

theorem lstrip_cons_of_space {c : Char} (t : List Char) (h : isPySpace c = true) :
    lstrip (c :: t) = lstrip t := by
  simp [lstrip, List.dropWhile, h]

theorem lstrip_cons_of_not_space {c : Char} (t : List Char) (h : isPySpace c = false) :
    lstrip (c :: t) = c :: t := by
  simp [lstrip, List.dropWhile, h]

theorem strip_cons_of_space {c : Char} (t : List Char) (h : isPySpace c = true) :
    strip (c :: t) = strip t := by
  simp [strip, lstrip_cons_of_space t h]

theorem rstrip_eq_nil_iff {s : List Char} :
    rstrip s = [] ↔ ∀ c ∈ s, isPySpace c := by
  simp [rstrip, List.dropWhile_eq_nil_iff]

theorem strip_eq_nil_iff {s : List Char} :
    strip s = [] ↔ ∀ c ∈ s, isPySpace c := by
  constructor
  · intro h c hc
    rw [strip, rstrip_eq_nil_iff] at h
    rcases List.mem_append.mp
        (by rw [List.takeWhile_append_dropWhile] ; exact hc :
          c ∈ s.takeWhile isPySpace ++ s.dropWhile isPySpace) with hm | hm
    · exact List.mem_takeWhile_imp hm
    · exact h c hm
  · intro h
    rw [strip, rstrip_eq_nil_iff]
    intro c hc
    exact h c ((List.dropWhile_sublist isPySpace).mem hc)

theorem strip_cons_ne_nil {c : Char} (t : List Char) (h : isPySpace c = false) :
    strip (c :: t) ≠ [] := by
  intro hnil
  have := strip_eq_nil_iff.mp hnil c (by simp)
  simp [h] at this

theorem isPySpace_of_isLineBreak {c : Char} (h : isLineBreak c = true) :
    isPySpace c = true := by
  simp only [isLineBreak, Bool.or_eq_true, decide_eq_true_eq] at h
  rcases h with ((((((((h | h) | h) | h) | h) | h) | h) | h) | h) | h <;> subst h <;> rfl

/-! ## Lemmas about `splitlinesKeepends` -/

theorem splitlines_rn (t : List Char) :
    splitlinesKeepends ('\r' :: '\n' :: t) = ['\r', '\n'] :: splitlinesKeepends t := by
  rw [splitlinesKeepends.eq_def]
  norm_num

theorem splitlines_break {c : Char} (t : List Char) (hb : isLineBreak c = true)
    (hrn : ¬(c = '\r' ∧ t.head? = some '\n')) :
    splitlinesKeepends (c :: t) = [c] :: splitlinesKeepends t := by
  rw [splitlinesKeepends.eq_def]
  by_cases hc : c = '\r'
  · subst hc
    simp only [if_pos rfl]
    cases t with
    | nil => rfl
    | cons c2 rest2 =>
      have h2 : ¬ c2 = '\n' := fun h => hrn ⟨rfl, by simp [h]⟩
      simp [h2]
  · simp [hc, hb]

theorem splitlines_other {c : Char} (t : List Char) (hb : isLineBreak c = false) :
    splitlinesKeepends (c :: t) =
      match splitlinesKeepends t with
      | [] => [[c]]
      | l :: ls => (c :: l) :: ls := by
  have hc : ¬ c = '\r' := by
    intro h; subst h; simp [isLineBreak] at hb
  rw [splitlinesKeepends.eq_def]
  simp [hc, hb]

theorem splitlines_cons_ne_nil (c : Char) (t : List Char) :
    splitlinesKeepends (c :: t) ≠ [] := by
  rw [splitlinesKeepends.eq_def]
  repeat' split
  all_goals simp_all

theorem splitlines_singleton (c : Char) :
    splitlinesKeepends [c] = [[c]] := by
  rw [splitlinesKeepends.eq_def]
  repeat' split
  all_goals simp_all [splitlinesKeepends]

/-! ## The submission sentinel: code path vs. spec reading -/

theorem specScan_cons_blank {l : List Char} (ls : List (List Char))
    (h : strip l = []) : specScan (l :: ls) = specScan ls := by
  simp [specScan, firstNonBlank, h]

theorem specScan_cons_congr {la lb : List Char} (ls : List (List Char))
    (h : strip la = strip lb) : specScan (la :: ls) = specScan (lb :: ls) := by
  by_cases hb : strip lb = []
  · simp [specScan, firstNonBlank, h, hb]
  · simp [specScan, firstNonBlank, h, hb]

theorem has_finished_lstrip_congr {s t : List Char} (h : lstrip s = lstrip t) :
    has_finished (some s) = has_finished (some t) := by
  simp only [has_finished]
  rw [show (some s).getD [] = s from rfl, show (some t).getD [] = t from rfl, h]

theorem has_finished_aux : ∀ (n : Nat) (s : List Char), s.length ≤ n →
    has_finished (some s) = specScan (splitlinesKeepends s) := by
  intro n
  induction n with
  | zero =>
    intro s hs
    have hsnil : s = [] := List.length_eq_zero.mp (Nat.le_zero.mp hs)
    subst hsnil
    rfl
  | succ n ih =>
    intro s hs
    cases s with
    | nil => rfl
    | cons c t =>
      by_cases hws : isPySpace c = true
      · cases t with
        | nil =>
          have h2 : strip [c] = [] := strip_eq_nil_iff.mpr (by
            intro x hx
            rcases List.mem_singleton.mp hx with h
            subst h; exact hws)
          have h1 : has_finished (some [c]) = none := by
            simp [has_finished, lstrip, List.dropWhile, hws, splitlinesKeepends]
          rw [h1, splitlines_singleton, specScan_cons_blank [] h2]
          rfl
        | cons c2 t2 =>
          by_cases hrn : c = '\r' ∧ c2 = '\n'
          · obtain ⟨hc, hc2⟩ := hrn
            subst hc; subst hc2
            rw [splitlines_rn,
              specScan_cons_blank _ (strip_eq_nil_iff.mpr (by decide)),
              has_finished_lstrip_congr
                (by rw [lstrip_cons_of_space _ (by rfl), lstrip_cons_of_space _ (by rfl)] :
                  lstrip ('\r' :: '\n' :: t2) = lstrip t2)]
            exact ih t2 (by simp only [List.length_cons] at hs ⊢; omega)
          · by_cases hbk : isLineBreak c = true
            · have hhead : ¬(c = '\r' ∧ (c2 :: t2).head? = some '\n') := by
                intro hx
                exact hrn ⟨hx.1, by simpa using hx.2⟩
              rw [splitlines_break (c2 :: t2) hbk hhead,
                specScan_cons_blank _ (strip_eq_nil_iff.mpr (by
                  intro x hx
                  rcases List.mem_singleton.mp hx with h
                  subst h; exact hws)),
                has_finished_lstrip_congr (lstrip_cons_of_space (c2 :: t2) hws)]
              exact ih (c2 :: t2) (by simp only [List.length_cons] at hs ⊢; omega)
            · have hbk2 : isLineBreak c = false := by simpa using hbk
              rw [splitlines_other (c2 :: t2) hbk2]
              cases h : splitlinesKeepends (c2 :: t2) with
              | nil => exact absurd h (splitlines_cons_ne_nil c2 t2)
              | cons l ls =>
                have hgoal : specScan ((c :: l) :: ls) = specScan (l :: ls) :=
                  specScan_cons_congr ls (strip_cons_of_space l hws)
                rw [hgoal, ← h,
                  has_finished_lstrip_congr (lstrip_cons_of_space (c2 :: t2) hws)]
                exact ih (c2 :: t2) (by simp only [List.length_cons] at hs ⊢; omega)
      · -- non-whitespace head: the first kept line is the first non-blank line
        have hws2 : isPySpace c = false := by simpa using hws
        have hbk2 : isLineBreak c = false := by
          rcases Bool.eq_false_or_eq_true (isLineBreak c) with h | h
          · exact absurd (isPySpace_of_isLineBreak h) hws
          · exact h
        have hL : has_finished (some (c :: t)) =
            match splitlinesKeepends (c :: t) with
            | [] => none
            | l :: rest => if strip l ∈ sentinels then some rest.flatten else none := by
          simp only [has_finished]
          rw [show (some (c :: t)).getD [] = c :: t from rfl,
            lstrip_cons_of_not_space t hws2]
        rw [hL, splitlines_other t hbk2]
        cases h : splitlinesKeepends t with
        | nil =>
          have hne : strip [c] ≠ [] := strip_cons_ne_nil [] hws2
          by_cases hm : strip [c] ∈ sentinels
          · simp [specScan, firstNonBlank, hne, hm]
          · simp [specScan, firstNonBlank, hne, hm]
        | cons l ls =>
          have hne : strip (c :: l) ≠ [] := strip_cons_ne_nil l hws2
          by_cases hm : strip (c :: l) ∈ sentinels
          · simp [specScan, firstNonBlank, hne, hm]
          · simp [specScan, firstNonBlank, hne, hm]

/-- The code's sentinel test (`has_finished`: lstrip the whole output, test
the first kept line) agrees with the spec-side scan (first non-blank line
of the raw output, stripped, compared against the sentinels; payload = the
text after that line). -/
theorem has_finished_eq_specScan (s : List Char) :
    has_finished (some s) = specScan (splitlinesKeepends s) :=
  has_finished_aux s.length s (Nat.le_refl _)

theorem specScan_eq_submit (out : List Char) :
    specScan (splitlinesKeepends out) =
      if submitCondition out then (submitPayload out).getD [] |> some else none := by
  unfold specScan submitCondition submitPayload
  cases h : firstNonBlank (splitlinesKeepends out) with
  | none => simp
  | some p =>
    cases p with
    | mk l rest =>
      by_cases hm : strip l ∈ sentinels
      · simp [hm]
      · simp [hm]

/-! ## Claim theorems -/

/-- C2 (amended: the first non-blank line is stripped of leading AND
trailing whitespace before the sentinel comparison): for every execution
result the control loop inspects, the run terminates with kind
`"Submitted"` iff the first non-blank line of the result's output, stripped
of surrounding whitespace, equals one of the sentinels; the final message
is then exactly the text after that first line. -/
theorem C2_submission (cfg : AgentConfig) (o : Oracles) (st : AgentState)
    (res : EnvResult) (a : List Char)
    (hlim : limitsHit cfg st = false)
    (hact : cfg.findall (o.model st.messages).content = [a])
    (henv : o.env (strip a) = EnvOutcome.result res) :
    (iterDoneKind (loopIter cfg o st) = some kindSubmitted ↔
      submitCondition res.output = true) ∧
    (submitCondition res.output = true →
      iterDoneMsg (loopIter cfg o st) = some ((submitPayload res.output).getD [])) := by
  simp only [loopIter, step, query, hlim, parse_action, hact, execute_action, henv,
    Bool.false_eq_true, if_false]
  rw [has_finished_eq_specScan, specScan_eq_submit]
  cases hc : submitCondition res.output with
  | false => simp [hc, iterDoneKind, iterDoneMsg, kindSubmitted]
  | true => simp [hc, iterDoneKind, iterDoneMsg]



/-- C2 counterexample: on an output whose first non-blank line is the
sentinel followed by a trailing space, the loop terminates with kind
`"Submitted"` and payload `"foo"`, yet the claim's condition — the first
non-blank line equals a sentinel after stripping only LEADING whitespace —
is false, so the claimed equivalence fails as stated (the code strips both
sides: `lines[0].strip()`). -/
theorem C2_counterexample :
    iterDoneKind (loopIter testConfig
      (constOracles (EnvOutcome.result { output := c2Output, returncode := 0 }))
      emptyState) = some kindSubmitted ∧
    iterDoneMsg (loopIter testConfig
      (constOracles (EnvOutcome.result { output := c2Output, returncode := 0 }))
      emptyState) = some "foo".toList ∧
    claimC2Condition c2Output = false :=
  ⟨by decide, by decide, by decide⟩



theorem C2_submission_witness :
    iterDoneKind (loopIter testConfig
      (constOracles (EnvOutcome.result { output := c2Example, returncode := 0 }))
      emptyState) = some kindSubmitted ∧
    iterDoneMsg (loopIter testConfig
      (constOracles (EnvOutcome.result { output := c2Example, returncode := 0 }))
      emptyState) = some "foo\nbar".toList := by
  have h := C2_submission testConfig
    (constOracles (EnvOutcome.result { output := c2Example, returncode := 0 }))
    emptyState { output := c2Example, returncode := 0 } "ls".toList
    (by decide) rfl rfl
  exact ⟨h.1.mpr (by decide), (h.2 (by decide)).trans (by decide)⟩

/-- C10: an output that is exactly a sentinel line with nothing after it
submits with the empty payload; an empty output, an all-whitespace output,
and an execution result without an `output` field never trigger sentinel
detection. -/
theorem C10_sentinel_edges :
    (∀ s ∈ sentinels, has_finished (some s) = some []) ∧
    has_finished (some []) = none ∧
    (∀ s : List Char, (∀ c ∈ s, isPySpace c = true) → has_finished (some s) = none) ∧
    has_finished none = none := by
  refine ⟨?_, rfl, ?_, rfl⟩
  · intro s hs
    simp only [sentinels, List.mem_cons, List.not_mem_nil, or_false] at hs
    rcases hs with h | h <;> subst h <;> decide
  · intro s hws
    have hnil : lstrip s = [] := by
      simp only [lstrip, List.dropWhile_eq_nil_iff]
      exact hws
    simp [has_finished, hnil, splitlinesKeepends]

theorem C10_sentinel_edges_witness :
    has_finished (some "MINI_SWE_AGENT_FINAL_OUTPUT".toList) = some [] ∧
    has_finished (some "  \t \n ".toList) = none :=
  ⟨C10_sentinel_edges.1 "MINI_SWE_AGENT_FINAL_OUTPUT".toList (by decide),
   C10_sentinel_edges.2.2.1 "  \t \n ".toList (by decide)⟩

/-- C3: with a positive step ceiling `N`, once `n_calls` has reached `N`
the next `query` raises `LimitsExceeded` without consulting the model (the
result does not depend on the oracle, and the state is returned as it was);
likewise for a positive cost ceiling that has been reached; in every other
case — each ceiling either not yet reached or set to 0 (disabled) — `query`
proceeds to call the model and append the assistant message. -/
theorem C3_budget_guard (cfg : AgentConfig) (o : Oracles) (st : AgentState) :
    (0 < cfg.step_limit → cfg.step_limit ≤ (st.n_calls : Int) →
      query cfg o st = QueryResult.limitsExceeded st) ∧
    (0 < cfg.cost_limit → cfg.cost_limit ≤ st.cost →
      query cfg o st = QueryResult.limitsExceeded st) ∧
    (((st.n_calls : Int) < cfg.step_limit ∨ cfg.step_limit ≤ 0) →
      (st.cost < cfg.cost_limit ∨ cfg.cost_limit ≤ 0) →
      query cfg o st =
        QueryResult.ok (o.model st.messages)
          (add_message o
            { st with n_calls := st.n_calls + 1,
                      cost := st.cost + (o.model st.messages).costDelta }
            "assistant".toList (o.model st.messages).content
            (o.model st.messages).extra)) := by
  refine ⟨?_, ?_, ?_⟩
  · intro h1 h2
    have hl : limitsHit cfg st = true := by
      simp only [limitsHit, Bool.or_eq_true, Bool.and_eq_true, decide_eq_true_eq]
      exact Or.inl ⟨h1, h2⟩
    simp [query, hl]
  · intro h1 h2
    have hl : limitsHit cfg st = true := by
      simp only [limitsHit, Bool.or_eq_true, Bool.and_eq_true, decide_eq_true_eq]
      exact Or.inr ⟨h1, h2⟩
    simp [query, hl]
  · intro h1 h2
    have hl : limitsHit cfg st = false := by
      simp only [limitsHit, Bool.or_eq_false_iff, Bool.and_eq_false_iff,
        decide_eq_false_iff_not, not_lt, not_le]
      constructor
      · rcases h1 with h | h
        · exact Or.inr (by omega)
        · exact Or.inl (by omega)
      · rcases h2 with h | h
        · exact Or.inr h
        · exact Or.inl h
    simp [query, hl]

theorem C3_budget_guard_witness :
    query { testConfig with step_limit := 2 }
        (constOracles (EnvOutcome.timeout none))
        { emptyState with n_calls := 2 } =
      QueryResult.limitsExceeded { emptyState with n_calls := 2 } :=
  (C3_budget_guard { testConfig with step_limit := 2 }
      (constOracles (EnvOutcome.timeout none))
      { emptyState with n_calls := 2 }).1 (by decide) (by decide)

/-- C9: whenever `query` raises `LimitsExceeded`, the state it propagates
with is exactly the entry state — conversation, call counter and cost
unchanged — and the outcome is the same for every model oracle (the model
was never invoked). -/
theorem C9_limits_leaves_state (cfg : AgentConfig) (o : Oracles) (st st2 : AgentState)
    (h : query cfg o st = QueryResult.limitsExceeded st2) :
    st2.messages = st.messages ∧ st2.n_calls = st.n_calls ∧ st2.cost = st.cost ∧
    ∀ o2 : Oracles, query cfg o2 st = QueryResult.limitsExceeded st2 := by
  unfold query at h
  cases hl : limitsHit cfg st with
  | false =>
    rw [hl] at h
    simp at h
  | true =>
    rw [hl] at h
    simp only [if_true] at h
    have hst : st = st2 := by
      cases h
      rfl
    subst hst
    refine ⟨rfl, rfl, rfl, ?_⟩
    intro o2
    simp [query, hl]

theorem C9_limits_leaves_state_witness :
    ({ emptyState with n_calls := 1 } : AgentState).messages = emptyState.messages ∧
    ({ emptyState with n_calls := 1 } : AgentState).n_calls =
      ({ emptyState with n_calls := 1 } : AgentState).n_calls ∧
    ({ emptyState with n_calls := 1 } : AgentState).cost =
      ({ emptyState with n_calls := 1 } : AgentState).cost ∧
    ∀ o2 : Oracles, query { testConfig with step_limit := 1 } o2
        { emptyState with n_calls := 1 } =
      QueryResult.limitsExceeded { emptyState with n_calls := 1 } := by
  have h := C9_limits_leaves_state { testConfig with step_limit := 1 }
    (constOracles (EnvOutcome.timeout none))
    { emptyState with n_calls := 1 } { emptyState with n_calls := 1 } rfl
  exact ⟨rfl, h.2.1, h.2.2.1, h.2.2.2⟩

/-- C4: when the configured action pattern matches exactly once in the
assistant response, `parse_action` returns the trimmed matched text; when
it matches zero times or two or more times, `parse_action` raises the
recoverable `FormatError` (message = the rendered format-error template),
which the run loop absorbs by appending that message as a user message and
continuing — the run does not terminate on it. -/
theorem C4_parse_action (cfg : AgentConfig) (o : Oracles) (st : AgentState)
    (hlim : limitsHit cfg st = false) :
    (∀ a, cfg.findall (o.model st.messages).content = [a] →
      parse_action cfg (o.model st.messages) = Except.ok (strip a)) ∧
    (∀ actions, cfg.findall (o.model st.messages).content = actions →
      actions.length ≠ 1 →
      parse_action cfg (o.model st.messages) =
        Except.error (cfg.render_format_error actions) ∧
      iterDoneKind (loopIter cfg o st) = none ∧
      (iterState (loopIter cfg o st)).messages =
        st.messages ++
          [{ role := "assistant".toList, content := (o.model st.messages).content,
             timestamp := o.clock st.ticks, extra := (o.model st.messages).extra },
           { role := "user".toList, content := cfg.render_format_error actions,
             timestamp := o.clock (st.ticks + 1), extra := none }]) := by
  constructor
  · intro a ha
    simp [parse_action, ha]
  · intro actions ha hlen
    have hpa : parse_action cfg (o.model st.messages) =
        Except.error (cfg.render_format_error actions) := by
      unfold parse_action
      rw [ha]
      rcases actions with _ | ⟨a, _ | ⟨b, rest⟩⟩
      · rfl
      · exact absurd rfl hlen
      · rfl
    refine ⟨hpa, ?_, ?_⟩ <;>
      simp [loopIter, step, query, hlim, hpa, iterDoneKind, iterState, add_message,
        List.append_assoc]

theorem C4_parse_action_witness :
    parse_action { testConfig with findall := fun _ => [] }
        ((constOracles (EnvOutcome.timeout none)).model emptyState.messages) =
      Except.error ({ testConfig with findall := fun _ => [] }.render_format_error []) ∧
    iterDoneKind (loopIter { testConfig with findall := fun _ => [] }
      (constOracles (EnvOutcome.timeout none)) emptyState) = none ∧
    (iterState (loopIter { testConfig with findall := fun _ => [] }
      (constOracles (EnvOutcome.timeout none)) emptyState)).messages =
      emptyState.messages ++
        [{ role := "assistant".toList, content := [], timestamp := 0, extra := none },
         { role := "user".toList, content := "format error".toList,
           timestamp := 0, extra := none }] := by
  have h := (C4_parse_action { testConfig with findall := fun _ => [] }
    (constOracles (EnvOutcome.timeout none)) emptyState (by decide)).2 [] rfl (by decide)
  exact ⟨h.1, h.2.1, h.2.2⟩

/-- C5: a command execution that times out is recoverable: the loop
continues (no termination), and exactly one observation — a user message
rendering the timeout template over the action and the partial captured
output (empty when none was captured) — is appended after the assistant
message. -/
theorem C5_timeout_recoverable (cfg : AgentConfig) (o : Oracles) (st : AgentState)
    (a : List Char) (captured : Option (List Char))
    (hlim : limitsHit cfg st = false)
    (hact : cfg.findall (o.model st.messages).content = [a])
    (henv : o.env (strip a) = EnvOutcome.timeout captured) :
    iterDoneKind (loopIter cfg o st) = none ∧
    (iterState (loopIter cfg o st)).messages =
      st.messages ++
        [{ role := "assistant".toList, content := (o.model st.messages).content,
           timestamp := o.clock st.ticks, extra := (o.model st.messages).extra },
         { role := "user".toList,
           content := cfg.render_timeout (strip a) (captured.getD []),
           timestamp := o.clock (st.ticks + 1), extra := none }] := by
  constructor <;>
    simp [loopIter, step, query, hlim, parse_action, hact, execute_action, henv,
      iterDoneKind, iterState, add_message, List.append_assoc]

theorem C5_timeout_recoverable_witness :
    iterDoneKind (loopIter testConfig
      (constOracles (EnvOutcome.timeout (some "partial out".toList)))
      emptyState) = none ∧
    (iterState (loopIter testConfig
      (constOracles (EnvOutcome.timeout (some "partial out".toList)))
      emptyState)).messages =
      emptyState.messages ++
        [{ role := "assistant".toList, content := [], timestamp := 0, extra := none },
         { role := "user".toList, content := "partial out".toList,
           timestamp := 0, extra := none }] := by
  have h := C5_timeout_recoverable testConfig
    (constOracles (EnvOutcome.timeout (some "partial out".toList)))
    emptyState "ls".toList (some "partial out".toList) (by decide) rfl rfl
  exact ⟨h.1, h.2⟩

/-! ## Append-only conversation: supporting lemmas -/

theorem loopIter_messages (cfg : AgentConfig) (o : Oracles) (st : AgentState) :
    st.messages <+: (iterState (loopIter cfg o st)).messages := by
  cases hl : limitsHit cfg st with
  | true =>
    simp [loopIter, step, query, hl, iterState, add_message, List.prefix_append]
  | false =>
    cases hpa : parse_action cfg (o.model st.messages) with
    | error msg =>
      simp [loopIter, step, query, hl, hpa, iterState, add_message,
        List.append_assoc, List.prefix_append]
    | ok action =>
      cases hea : execute_action cfg o action with
      | timeoutError msg =>
        simp [loopIter, step, query, hl, hpa, hea, iterState, add_message,
          List.append_assoc, List.prefix_append]
      | submitted payload =>
        simp [loopIter, step, query, hl, hpa, hea, iterState, add_message,
          List.append_assoc, List.prefix_append]
      | ok res =>
        simp [loopIter, step, query, hl, hpa, hea, iterState, add_message,
          List.append_assoc, List.prefix_append]

theorem runFor_messages (cfg : AgentConfig) (o : Oracles) : ∀ (n : Nat) (st : AgentState),
    st.messages <+: (runFor cfg o n st).2.messages := by
  intro n
  induction n with
  | zero => intro st; exact List.prefix_rfl
  | succ n ih =>
    intro st
    have h := loopIter_messages cfg o st
    simp only [runFor]
    cases hit : loopIter cfg o st with
    | next st2 =>
      rw [hit] at h
      simp only [iterState] at h
      exact h.trans (ih st2)
    | done k m st2 =>
      rw [hit] at h
      simpa [iterState] using h

theorem runFor_add (cfg : AgentConfig) (o : Oracles) (m k : Nat) : ∀ st : AgentState,
    runFor cfg o (m + k) st =
      match runFor cfg o m st with
      | (some r, st2) => (some r, st2)
      | (none, st2) => runFor cfg o k st2 := by
  induction m with
  | zero => intro st; simp [runFor]
  | succ m ih =>
    intro st
    rw [Nat.succ_add m k]
    simp only [runFor]
    cases hit : loopIter cfg o st with
    | next st2 => exact ih st2
    | done kk mm st2 => simp

/-- C7: a run resets the conversation exactly once at its start — after the
reset the message list is exactly the rendered system prompt followed by
the rendered task prompt — and every later operation only appends: the
message list at any earlier point of the run is a prefix of the list at any
later point, so the first two messages are always the two rendered
prompts. -/
theorem C7_conversation_invariant (cfg : AgentConfig) (o : Oracles) (st0 : AgentState) :
    (runStart cfg o st0).messages =
      [{ role := "system".toList, content := cfg.system_prompt,
         timestamp := o.clock st0.ticks, extra := none },
       { role := "user".toList, content := cfg.instance_prompt,
         timestamp := o.clock (st0.ticks + 1), extra := none }] ∧
    (∀ m n : Nat, m ≤ n →
      (runFor cfg o m (runStart cfg o st0)).2.messages <+:
        (runFor cfg o n (runStart cfg o st0)).2.messages) ∧
    (∀ n : Nat, ((runFor cfg o n (runStart cfg o st0)).2.messages).take 2 =
      (runStart cfg o st0).messages) := by
  have hinit : (runStart cfg o st0).messages =
      [{ role := "system".toList, content := cfg.system_prompt,
         timestamp := o.clock st0.ticks, extra := none },
       { role := "user".toList, content := cfg.instance_prompt,
         timestamp := o.clock (st0.ticks + 1), extra := none }] := by
    simp [runStart, add_message]
  have hmono : ∀ m n : Nat, m ≤ n →
      (runFor cfg o m (runStart cfg o st0)).2.messages <+:
        (runFor cfg o n (runStart cfg o st0)).2.messages := by
    intro m n hmn
    obtain ⟨k, rfl⟩ := Nat.exists_eq_add_of_le hmn
    rw [runFor_add]
    cases h : runFor cfg o m (runStart cfg o st0) with
    | mk fst snd =>
      cases fst with
      | none => exact runFor_messages cfg o k snd
      | some r => exact List.prefix_rfl
  refine ⟨hinit, hmono, ?_⟩
  intro n
  obtain ⟨t, ht⟩ := hmono 0 n (Nat.zero_le n)
  rw [show runFor cfg o 0 (runStart cfg o st0) = (none, runStart cfg o st0) from rfl] at ht
  rw [← ht, hinit]
  rfl

theorem C7_conversation_invariant_witness :
    (runFor testConfig (constOracles (EnvOutcome.timeout none)) 0
        (runStart testConfig (constOracles (EnvOutcome.timeout none)) emptyState)).2.messages <+:
      (runFor testConfig (constOracles (EnvOutcome.timeout none)) 1
        (runStart testConfig (constOracles (EnvOutcome.timeout none)) emptyState)).2.messages :=
  (C7_conversation_invariant testConfig (constOracles (EnvOutcome.timeout none))
    emptyState).2.1 0 1 (by decide)

/-- C8: the provider input is a function of the messages' role and content
fields only — the adapter strips every other field (timestamps, diagnostic
extras) before handing the list to the provider, so two message lists that
agree pointwise on role and content produce identical provider inputs
(whether or not a continuation handle restricts the input to the last
message). -/
theorem C8_role_content_only (prev : Option (List Char)) (m1 m2 : List Message)
    (h : List.Forall₂ (fun a b => a.role = b.role ∧ a.content = b.content) m1 m2) :
    providerInput prev m1 = providerInput prev m2 := by
  have hc : clean_messages m1 = clean_messages m2 := by
    induction h with
    | nil => rfl
    | cons hab htail ihtail =>
      simp only [clean_messages, List.map_cons] at ihtail ⊢
      rw [hab.1, hab.2, ihtail]
  cases prev <;> simp [providerInput, hc]

theorem C8_role_content_only_witness :
    providerInput none
      [{ role := "user".toList, content := "hi".toList, timestamp := 1,
         extra := none }] =
    providerInput none
      [{ role := "user".toList, content := "hi".toList, timestamp := 2,
         extra := some (Json.str "raw response".toList) }] :=
  C8_role_content_only none _ _ (List.Forall₂.cons ⟨rfl, rfl⟩ List.Forall₂.nil)

/-! ## Retry policy lemmas -/

theorem retryCall_attempt_le {α : Type} (f : Nat → Except LMError α) :
    ∀ (r a : Nat), (retryCall f a r).2.1 ≤ a + r := by
  intro r
  induction r with
  | zero => intro a; simp [retryCall]
  | succ r ih =>
    intro a
    simp only [retryCall]
    cases f a with
    | ok v => simp
    | error e =>
      cases hnr : noRetry e with
      | true => simp [hnr]
      | false =>
        have h1 := ih (a + 1)
        cases hrec : retryCall f (a + 1) r with
        | mk res rest =>
          cases rest with
          | mk n ws =>
            rw [hrec] at h1
            simp only at h1
            simp [hnr, hrec]
            omega

theorem retryCall_attempt_ge {α : Type} (f : Nat → Except LMError α) :
    ∀ (r a : Nat), a ≤ (retryCall f a r).2.1 := by
  intro r
  induction r with
  | zero => intro a; simp [retryCall]
  | succ r ih =>
    intro a
    simp only [retryCall]
    cases f a with
    | ok v => simp
    | error e =>
      cases hnr : noRetry e with
      | true => simp [hnr]
      | false =>
        have h1 := ih (a + 1)
        cases hrec : retryCall f (a + 1) r with
        | mk res rest =>
          cases rest with
          | mk n ws =>
            rw [hrec] at h1
            simp only at h1
            simp [hnr, hrec]
            omega

theorem retryCall_waits {α : Type} (f : Nat → Except LMError α) :
    ∀ (r a : Nat), (retryCall f a r).2.2 =
      (List.range ((retryCall f a r).2.1 - a)).map (fun i => waitExponential (a + i)) := by
  intro r
  induction r with
  | zero => intro a; simp [retryCall]
  | succ r ih =>
    intro a
    simp only [retryCall]
    cases f a with
    | ok v => simp
    | error e =>
      cases hnr : noRetry e with
      | true => simp [hnr]
      | false =>
        have hge := retryCall_attempt_ge f r (a + 1)
        have hw := ih (a + 1)
        cases hrec : retryCall f (a + 1) r with
        | mk res rest =>
          cases rest with
          | mk n ws =>
            rw [hrec] at hge hw
            simp only at hge hw
            simp only [hnr, hrec]
            have hn : n - a = (n - (a + 1)) + 1 := by omega
            simp only [Bool.false_eq_true, if_false]
            rw [hw, hn, List.range_succ_eq_map]
            simp only [List.map_cons, List.map_map, Nat.add_zero]
            congr 1
            apply List.map_congr_left
            intro i hi
            simp only [Function.comp]
            congr 1
            omega

theorem retryCall_noRetry {α : Type} (f : Nat → Except LMError α) (a r : Nat)
    (e : LMError) (hf : f a = Except.error e) (hnr : noRetry e = true) :
    retryCall f a (Nat.succ r) = (Except.error e, a, []) := by
  simp [retryCall, hf, hnr]

/-- C6: the adapter retries at most `stop_after_attempt(10)` attempts, the
waits between attempts follow the configured exponential backoff, and an
error of one of the non-retryable classes (unsupported-params, not-found,
permission-denied, context-window-exceeded, generic API, authentication,
keyboard interrupt) is propagated at the attempt that raised it, with no
further attempt and no backoff wait. -/
theorem C6_retry_policy {α : Type} (f : Nat → Except LMError α) :
    (queryWithRetry f).2.1 ≤ stopAfterAttemptBound ∧
    (∀ e, noRetry e = true → f 1 = Except.error e →
      queryWithRetry f = (Except.error e, 1, [])) ∧
    (∀ a r e, noRetry e = true → f a = Except.error e →
      retryCall f a (Nat.succ r) = (Except.error e, a, [])) ∧
    (queryWithRetry f).2.2 =
      (List.range ((queryWithRetry f).2.1 - 1)).map
        (fun i => waitExponential (1 + i)) := by
  refine ⟨?_, ?_, ?_, ?_⟩
  · have := retryCall_attempt_le f (stopAfterAttemptBound - 1) 1
    simpa [queryWithRetry, stopAfterAttemptBound] using this
  · intro e hnr hf
    have : stopAfterAttemptBound - 1 = Nat.succ 8 := rfl
    rw [queryWithRetry, this]
    exact retryCall_noRetry f 1 8 e hf hnr
  · intro a r e hnr hf
    exact retryCall_noRetry f a r e hf hnr
  · exact retryCall_waits f (stopAfterAttemptBound - 1) 1

theorem C6_retry_policy_witness :
    queryWithRetry (fun _ => (Except.error LMError.apiError : Except LMError Unit)) =
      (Except.error LMError.apiError, 1, []) :=
  (C6_retry_policy (fun _ => (Except.error LMError.apiError : Except LMError Unit))).2.1
    LMError.apiError rfl rfl

/-- C1 (amended: the unwrap fires when the trimmed output parses as a JSON
object CONTAINING the keys `output` and `returncode` — extra keys do not
prevent it): when the condition holds, `execute` returns those two fields
verbatim in place of the raw text and shell exit code; when it does not
hold (including decoding failures and non-object values), `execute`
returns the raw captured text paired with the shell return code. -/
theorem C1_json_unwrap (stdout : List Char) (rc : Int) :
    (∀ members, jsonLoads (strip stdout) = some (Json.obj members) →
      ∀ outv rcv, jsonLookup members outputKey = some outv →
        jsonLookup members returncodeKey = some rcv →
        execute stdout rc = { output := outv, returncode := rcv }) ∧
    (unwrapCondition stdout = false →
      execute stdout rc = { output := Json.str stdout, returncode := Json.num rc }) := by
  constructor
  · intro members hm outv rcv ho hr
    simp [execute, hm, ho, hr]
  · intro hcond
    unfold unwrapCondition at hcond
    unfold execute
    cases hj : jsonLoads (strip stdout) with
    | none => rfl
    | some v =>
      cases v with
      | obj members =>
        rw [hj] at hcond
        cases ho : jsonLookup members outputKey with
        | none => simp [ho]
        | some outv =>
          cases hr : jsonLookup members returncodeKey with
          | none => simp [ho, hr]
          | some rcv => simp [ho, hr] at hcond
      | null => rfl
      | bool b => rfl
      | num n => rfl
      | str s => rfl
      | arr elems => rfl



/-- C1 counterexample: the executor unwraps an object that carries an extra
third key (the code only tests membership of the two keys), although the
claim's "exactly the two keys" condition is false there — and the unwrapped
result differs from the raw text the claim requires. -/
theorem C1_counterexample :
    execute c1Extra 0 = { output := Json.str "x".toList, returncode := Json.num 3 } ∧
    claimC1Condition c1Extra = false ∧
    "x".toList ≠ c1Extra :=
  ⟨by rfl, by decide, by decide⟩



theorem C1_json_unwrap_witness :
    execute c1Wrapped 0 = { output := Json.str "x".toList, returncode := Json.num 3 } :=
  (C1_json_unwrap c1Wrapped 0).1
    [(outputKey, Json.str "x".toList), (returncodeKey, Json.num 3)] rfl
    (Json.str "x".toList) (Json.num 3) rfl rfl

end MiniSweAgent
